import Mathlib

/-!
# FDA Nozzle V&V — verification of the comparison-pipeline core

Shallow embedding of the pure computational core of the FDA nozzle
benchmark V&V scripts (`vv_utils.py`, `vv_jet_width.py`):

* `parse_experimental_file` — line-oriented parser of the experimental
  PIV data file into labelled sections;
* `read_openfoam_sample` — reader of OpenFOAM `.xy` sample tables over a
  modelled directory tree, including `latestTime` directory selection;
* `calculate_error_metrics` — RMSE/MAE/R²/MaxErr/NRMSE battery;
* `calculate_jet_width` — half-velocity jet-width extraction.

Real numbers of the scripts are modelled as `ℚ`; the one irrational
operation, `np.sqrt` in RMSE/NRMSE, is tracked through its square
(`RMSE_sq`, `NRMSE_sq`), which determines the original value exactly and
in particular is zero exactly when the original is.  A NaN result is
modelled as `none`; a raised Python exception as `Except.error`.
Text (lines, labels, directory and file names) is modelled as `List
Char` so that every definition evaluates by kernel reduction.
-/

namespace VV

/-- A Python string: its list of characters. -/
abbrev Str := List Char

/-- Python `str.strip()`: drop leading and trailing whitespace. -/
def pstrip (s : Str) : Str :=
  ((s.dropWhile Char.isWhitespace).reverse.dropWhile Char.isWhitespace).reverse

/-- Python `str.startswith(pre)`. -/
def startswith : Str → Str → Bool
  | [], _ => true
  | _ :: _, [] => false
  | c :: cs, d :: ds => c = d && startswith cs ds

/-- Whitespace tokenisation, Python `str.split()` with no argument (the
script's tab-to-spaces replacement is absorbed by this).  The first
argument accumulates the current token reversed. -/
def tokensGo (cur : Str) : Str → List Str
  | [] => if cur = [] then [] else [cur.reverse]
  | c :: cs =>
    if c.isWhitespace then
      if cur = [] then tokensGo [] cs else cur.reverse :: tokensGo [] cs
    else tokensGo (c :: cur) cs

/-- The whitespace-separated tokens of a line. -/
def tokens (line : Str) : List Str := tokensGo [] line

/-! Python-style numeric literal parsing

`float()` applied to a decimal literal.  We model the decimal-literal
subset (optional sign, digits with at most one dot, optional exponent),
which covers every literal the scripts' data files can carry into `ℚ`.
-/

/-- Numeric value of a digit string (most significant first). -/
def digitsVal (s : Str) : ℕ :=
  s.foldl (fun a c => 10 * a + (c.toNat - 48)) 0

/-- Exponent part after `e`/`E`: optional sign then digits. -/
def parseExp : Str → Option ℤ
  | '+' :: ds => if ds ≠ [] ∧ ds.all Char.isDigit then some (digitsVal ds) else none
  | '-' :: ds => if ds ≠ [] ∧ ds.all Char.isDigit then some (-(digitsVal ds : ℤ)) else none
  | ds => if ds ≠ [] ∧ ds.all Char.isDigit then some (digitsVal ds) else none

/-- Mantissa: digits with an optional dot (at least one digit overall).
Returns the value and the unconsumed characters. -/
def parseMantissa (s : Str) : Option (ℚ × Str) :=
  let ip := s.takeWhile Char.isDigit
  let rest := s.dropWhile Char.isDigit
  match rest with
  | '.' :: rest2 =>
      let fp := rest2.takeWhile Char.isDigit
      let rest3 := rest2.dropWhile Char.isDigit
      if ip = [] ∧ fp = [] then none
      else some ((digitsVal ip : ℚ) + (digitsVal fp : ℚ) / (10 : ℚ) ^ fp.length, rest3)
  | _ => if ip = [] then none else some ((digitsVal ip : ℚ), rest)

/-- Python `float(s)` on a decimal literal, as an exact rational;
`none` models a raised `ValueError`. -/
def pyFloat (s : Str) : Option ℚ :=
  let signed : ℚ × Str :=
    match pstrip s with
    | '+' :: t => (1, t)
    | '-' :: t => (-1, t)
    | t => (1, t)
  match parseMantissa signed.2 with
  | none => none
  | some (m, rest) =>
    match rest with
    | [] => some (signed.1 * m)
    | 'e' :: t => (parseExp t).map fun e => signed.1 * m * (10 : ℚ) ^ e
    | 'E' :: t => (parseExp t).map fun e => signed.1 * m * (10 : ℚ) ^ e
    | _ => none

/-! Embedding of `parse_experimental_file` (vv_utils.py lines 17–47) -/

/-- A data row: the first two whitespace tokens both parse as floats
(`float(parts[0])`, `float(parts[1])`); otherwise no row. -/
def parseRow (line : Str) : Option (ℚ × ℚ) :=
  match tokens line with
  | t0 :: t1 :: _ =>
    match pyFloat t0, pyFloat t1 with
    | some r, some u => some (r, u)
    | _, _ => none
  | _ => none

/-- Python `dict` assignment `d[k] = v`: overwrite in place if the key is
present, append otherwise (insertion order preserved). -/
def dictInsert (k : Str) (v : List (ℚ × ℚ)) :
    List (Str × List (ℚ × ℚ)) → List (Str × List (ℚ × ℚ))
  | [] => [(k, v)]
  | (k', v') :: rest =>
      if k' = k then (k, v) :: rest else (k', v') :: dictInsert k v rest

/-- Parser state: accumulated dict, open section label, open section rows. -/
structure PState where
  data : List (Str × List (ℚ × ℚ))
  curSection : Option Str
  curData : List (ℚ × ℚ)

/-- Flush the open section into the dict if it is open and non-empty
(`if current_section and current_data`). -/
def flush (st : PState) : List (Str × List (ℚ × ℚ)) :=
  match st.curSection with
  | some sec => if st.curData ≠ [] then dictInsert sec st.curData st.data else st.data
  | none => st.data

/-- One line of the parse loop body. -/
def pstep (st : PState) (rawLine : Str) : PState :=
  let line := pstrip rawLine
  if line = [] then st
  else if startswith "plot-".toList line then
    { data := flush st, curSection := some line, curData := [] }
  else
    match st.curSection with
    | none => st
    | some _ =>
      match parseRow line with
      | some row => { st with curData := st.curData ++ [row] }
      | none => st

/-- The function `parse_experimental_file`, over the file's list of lines. -/
def parse_experimental_file (lines : List Str) : List (Str × List (ℚ × ℚ)) :=
  flush (lines.foldl pstep ⟨[], none, []⟩)

/-- All valid numeric rows of a file, in file order. -/
def allRows (lines : List Str) : List (ℚ × ℚ) :=
  lines.filterMap (fun l => parseRow (pstrip l))

/-! Embedding of `np.interp` and `calculate_error_metrics` (vv_utils.py lines 78–108) -/

/-- Interior scan of 1-D linear interpolation: `x0, f0` is the last node
at or below `x`; clamp to the final node past the end. -/
def interpGo (x x0 f0 : ℚ) : List ℚ → List ℚ → ℚ
  | x1 :: xps, f1 :: fps =>
      if x ≤ x1 then f0 + (f1 - f0) * (x - x0) / (x1 - x0)
      else interpGo x x1 f1 xps fps
  | _, _ => f0

/-- Model of `np.interp` at one point over nodes `xp` with values `fp`
(increasing `xp`; boundary clamping). -/
def interp1 (x : ℚ) : List ℚ → List ℚ → ℚ
  | x0 :: xps, f0 :: fps => if x ≤ x0 then f0 else interpGo x x0 f0 xps fps
  | _, _ => 0

/-- Model of `np.interp(xs, xp, fp)`: raises when the node array is empty or the
two arrays have different lengths, otherwise never fails. -/
def np_interp (xs xp fp : List ℚ) : Except Str (List ℚ) :=
  if xp.length = 0 then .error "array of sample points is empty".toList
  else if xp.length ≠ fp.length then .error "fp and xp are not of the same length".toList
  else .ok (xs.map (fun x => interp1 x xp fp))

/-- Model of `np.mean` (the script only reaches it on non-empty input). -/
def mean (l : List ℚ) : ℚ := l.sum / l.length

/-- Model of `np.max` of a non-empty array. -/
def npMax : List ℚ → ℚ
  | [] => 0
  | x :: xs => xs.foldl max x

/-- The metrics dict returned by `calculate_error_metrics`.  The code's
`RMSE` is `√RMSE_sq` and its `NRMSE` is `√NRMSE_sq`: the squares are
exact in `ℚ` and vanish exactly when the originals do.  `none` models
`np.nan`. -/
structure ErrorMetrics where
  RMSE_sq : ℚ
  MAE : ℚ
  R2 : Option ℚ
  MaxErr : ℚ
  NRMSE_sq : Option ℚ
deriving DecidableEq, Repr

/-- The function `calculate_error_metrics(exp_r, exp_u, sim_r, sim_u)`.  The two
abscissas are `Option`al because the code tests exactly them against
`None`; boolean-mask filtering of the experimental pair is modelled by
`zip`+`filter` (faithful for the paired arrays the contract supplies). -/
def calculate_error_metrics (exp_r : Option (List ℚ)) (exp_u : List ℚ)
    (sim_r : Option (List ℚ)) (sim_u : List ℚ) : Option ErrorMetrics :=
  match sim_r, exp_r with
  | none, _ => none
  | some _, none => none
  | some sr, some er =>
    if sr.length = 0 then none
    else if exp_u.all (fun u => u = 0) then none
    else
      let pairs := (er.zip exp_u).filter (fun p => p.2 ≠ 0)
      let exp_r_filt := pairs.map Prod.fst
      let exp_u_filt := pairs.map Prod.snd
      match np_interp exp_r_filt sr sim_u with
      | .error _ => none
      | .ok sim_interp =>
        let errors := (sim_interp.zip exp_u_filt).map (fun p => p.1 - p.2)
        let mse := mean (errors.map (fun e => e ^ 2))
        let mae := mean (errors.map (fun e => |e|))
        let maxErr := npMax (errors.map (fun e => |e|))
        let ss_res := (errors.map (fun e => e ^ 2)).sum
        let m := mean exp_u_filt
        let ss_tot := (exp_u_filt.map (fun u => (u - m) ^ 2)).sum
        let r2 : Option ℚ := if ss_tot > 0 then some (1 - ss_res / ss_tot) else none
        let maxAbs := npMax (exp_u_filt.map (fun u => |u|))
        let nrmse_sq : Option ℚ :=
          if maxAbs > 0 then some (mse / maxAbs ^ 2 * 10000) else none
        some ⟨mse, mae, r2, maxErr, nrmse_sq⟩

/-! Embedding of `read_openfoam_sample` (vv_utils.py lines 50–75)

The sample tree is modelled as the names of the immediate
subdirectories of the sampling root (in iteration order) together with
the text lines of each contained file. -/

/-- Modelled sampling root. -/
structure SampleFS where
  subdirs : List Str
  files : Str → Str → Option (List Str)

/-- Sort key of one time directory:
`float(x.name) if x.name.replace('.', '').isdigit() else 0`.
`float` raises (`Except.error`) on a digits-and-dots name holding more
than one dot. -/
def timeKey (name : Str) : Except Str ℚ :=
  let dotless := name.filter (fun c => c ≠ '.')
  if dotless ≠ [] ∧ dotless.all Char.isDigit then
    match pyFloat name with
    | some q => .ok q
    | none => .error "could not convert string to float".toList
  else .ok 0

/-- Total variant of `timeKey` (0 where `timeKey` raises), used to state
maximality. -/
def timeKeyD (name : Str) : ℚ :=
  match timeKey name with
  | .ok q => q
  | .error _ => 0

/-- Python `max(..., key=...)` scan: keep the first element whose key is
strictly maximal so far; a key evaluation may raise. -/
def maxGo (best : Str) (bk : ℚ) : List Str → Except Str Str
  | [] => .ok best
  | d :: ds =>
    match timeKey d with
    | .error e => .error e
    | .ok k => if bk < k then maxGo d k ds else maxGo best bk ds

/-- The `latestTime` directory selection: `none` when the root has no
subdirectories, otherwise the `max` by `timeKey`. -/
def select_latest : List Str → Except Str (Option Str)
  | [] => .ok none
  | d :: ds =>
    match timeKey d with
    | .error e => .error e
    | .ok k => (maxGo d k ds).map some

/-- One line of `np.loadtxt`: strip the `#` comment part, skip blank
lines, parse every remaining token as a float (raising on failure). -/
def loadtxtRow (line : Str) : Except Str (Option (List ℚ)) :=
  let content := pstrip (line.takeWhile (fun c => c ≠ '#'))
  if content = [] then .ok none
  else
    match (tokens content).mapM pyFloat with
    | some vals => .ok (some vals)
    | none => .error "could not convert string to float".toList

/-- The data rows of `np.loadtxt`, before the column-count check. -/
def loadtxtRows : List Str → Except Str (List (List ℚ))
  | [] => .ok []
  | l :: ls => do
    let r ← loadtxtRow l
    let rest ← loadtxtRows ls
    match r with
    | none => pure rest
    | some row => pure (row :: rest)

/-- Model of `np.loadtxt` over the file's lines: raises on an unparsable token or
on rows of unequal length. -/
def np_loadtxt (lines : List Str) : Except Str (List (List ℚ)) := do
  let rows ← loadtxtRows lines
  match rows with
  | [] => .ok []
  | r :: rs =>
    if rs.all (fun row => row.length = r.length) then .ok (r :: rs)
    else .error "wrong number of columns".toList

/-- File-resolution and loading phase of `read_openfoam_sample` within
the chosen time directory: existence check (`time_dir.exists()`, modelled
as presence among the root's entries), file lookup, `np.loadtxt`, the
`data.size == 0` guard and the three column slices.  numpy squeezes a
single-row or single-column table to one dimension, so `data[:, 0]`
raises there. -/
def read_table (fs : SampleFS) (set_name : Str) (tdir : Str) :
    Except Str (Option (List ℚ × List ℚ × List (List ℚ))) :=
  if tdir ∈ fs.subdirs then
    match fs.files tdir (set_name ++ "_p_U.xy".toList) with
    | none => pure none
    | some lines => do
      let data ← np_loadtxt lines
      if (data.map List.length).sum = 0 then pure none
      else
        match data with
        | [_] => throw "too many indices for array".toList
        | _ =>
          if (data.headD []).length < 2 then throw "too many indices for array".toList
          else
            pure (some (data.map (fun r => r.headD 0),
                        data.map (fun r => r.getD 1 0),
                        data.map (fun r => (r.drop 2).take 3)))
  else pure none

/-- The function `read_openfoam_sample(sample_dir, set_name, time)`.  The result
`ok none` is the code's `(None, None, None)`; `ok (some (pos, p, U))`
carries column 0, column 1 and columns 2–4; `error` is a raised
exception. -/
def read_openfoam_sample (fs : SampleFS) (set_name : Str) (time : Str) :
    Except Str (Option (List ℚ × List ℚ × List (List ℚ))) := do
  let tdir? ←
    if time = "latestTime".toList then select_latest fs.subdirs
    else pure (some time)
  match tdir? with
  | none => pure none
  | some tdir => read_table fs set_name tdir

/-! Embedding of `calculate_jet_width` (vv_jet_width.py lines 15–46) -/

/-- Model of `np.argmin(np.abs(r))`: index of the first minimal absolute value. -/
def argminAbsGo (i besti : ℕ) (bestv : ℚ) : List ℚ → ℕ
  | [] => besti
  | x :: xs =>
    if |x| < bestv then argminAbsGo (i + 1) i |x| xs
    else argminAbsGo (i + 1) besti bestv xs

/-- Index (into `r`) of the sample whose position is closest to zero. -/
def argminAbs : List ℚ → ℕ
  | [] => 0
  | x :: xs => argminAbsGo 1 0 |x| xs

/-- The crossing scan: first consecutive pair with velocity ≥ the
half-velocity threshold followed by velocity < it; linear interpolation
of the crossing radius, doubled into a width. -/
def findCrossing (u_half : ℚ) : List (ℚ × ℚ) → Option ℚ
  | (r0, u0) :: (r1, u1) :: rest =>
    if u_half ≤ u0 ∧ u1 < u_half then
      some (2 * (r0 + (u_half - u0) / (u1 - u0) * (r1 - r0)))
    else findCrossing u_half ((r1, u1) :: rest)
  | _ => none

/-- The function `calculate_jet_width(r, u_axial)`: `none` models `None`.  The
non-negative-radius mask is applied to the paired samples by
`zip`+`filter`, faithful for the equal-length arrays the caller
supplies. -/
def calculate_jet_width (rr uu : Option (List ℚ)) : Option ℚ :=
  match rr, uu with
  | some r, some u =>
    if r.length < 3 then none
    else
      let u_center := u.getD (argminAbs r) 0
      if u_center ≤ 0 then none
      else
        findCrossing (u_center / 2) ((r.zip u).filter (fun p => 0 ≤ p.1))
  | _, _ => none

/-- No consecutive pair of samples sits at or above the threshold `h`
and then strictly below it (the crossing the jet-width scan looks for
is absent). -/
def NoHalfCrossing (h : ℚ) (ps : List (ℚ × ℚ)) : Prop :=
  ∀ i : ℕ, i + 1 < ps.length →
    ¬(h ≤ (ps.getD i (0, 0)).2 ∧ (ps.getD (i + 1) (0, 0)).2 < h)

/-! Concrete sample trees used by the reader theorems -/

/-- A sampling root with one time directory whose table is malformed
(the token `abc` is not a float). -/
def malformedTree : SampleFS where
  subdirs := ["1".toList]
  files := fun d f =>
    if d = "1".toList ∧ f = "loc_p_U.xy".toList then some ["abc def".toList] else none

/-- A sampling root with one time directory and no files. -/
def bareTree : SampleFS where
  subdirs := ["2".toList]
  files := fun _ _ => none

/-! Theorems about the embedded functions -/

/-! Parser invariants (claims on `parse_experimental_file`) -/

/-- Entries of `dictInsert` are the new pair or old entries. -/
lemma dictInsert_mem {k : Str} {v : List (ℚ × ℚ)}
    {d : List (Str × List (ℚ × ℚ))} {e : Str × List (ℚ × ℚ)}
    (he : e ∈ dictInsert k v d) : e = (k, v) ∨ e ∈ d := by
  induction d with
  | nil => simpa [dictInsert] using he
  | cons hd tl ih =>
    rw [dictInsert] at he
    split at he
    · rcases List.mem_cons.mp he with h | h
      · exact Or.inl h
      · exact Or.inr (List.mem_cons_of_mem _ h)
    · rcases List.mem_cons.mp he with h | h
      · exact Or.inr (h ▸ List.mem_cons_self _ _)
      · rcases ih h with h' | h'
        · exact Or.inl h'
        · exact Or.inr (List.mem_cons_of_mem _ h')

/-- Entries of `flush` are old entries or the freshly closed non-empty
section. -/
lemma flush_mem {st : PState} {e : Str × List (ℚ × ℚ)} (he : e ∈ flush st) :
    e ∈ st.data ∨ (e.2 = st.curData ∧ st.curData ≠ []) := by
  rcases st with ⟨data, sec, cur⟩
  rcases sec with _ | sec
  · exact Or.inl he
  · by_cases hcur : cur = []
    · simp only [flush, hcur] at he
      exact Or.inl (by simpa using he)
    · simp only [flush] at he
      rw [if_pos hcur] at he
      rcases dictInsert_mem he with h | h
      · exact Or.inr ⟨by rw [h], hcur⟩
      · exact Or.inl h

/-- Invariant of the parse loop: every accumulated section is non-empty
and its rows are a sublist (in order) of `R`, as are the rows of the
open section. -/
def ParseInv (R : List (ℚ × ℚ)) (st : PState) : Prop :=
  (∀ e ∈ st.data, e.2 ≠ [] ∧ e.2.Sublist R) ∧ st.curData.Sublist R

lemma ParseInv.mono {R X : List (ℚ × ℚ)} {st : PState} (h : ParseInv R st) :
    ParseInv (R ++ X) st :=
  ⟨fun e he => ⟨(h.1 e he).1, (h.1 e he).2.trans (List.sublist_append_left R X)⟩,
   h.2.trans (List.sublist_append_left R X)⟩

/-- One step of the loop preserves the invariant, the reference list
growing by the row the line contributes (if any). -/
lemma pstep_inv {R : List (ℚ × ℚ)} {st : PState} (l : Str) (h : ParseInv R st) :
    ParseInv (R ++ (parseRow (pstrip l)).toList) (pstep st l) := by
  simp only [pstep]
  split
  · exact h.mono
  · split
    · refine ⟨fun e he => ?_, List.nil_sublist _⟩
      rcases flush_mem he with h' | h'
      · exact ⟨(h.1 e h').1, (h.1 e h').2.trans (List.sublist_append_left _ _)⟩
      · exact ⟨by rw [h'.1]; exact h'.2,
          by rw [h'.1]; exact h.2.trans (List.sublist_append_left _ _)⟩
    · split
      · exact h.mono
      · split
        · next row hrow =>
          rw [hrow]
          refine ⟨fun e he => ⟨(h.1 e he).1,
            (h.1 e he).2.trans (List.sublist_append_left _ _)⟩, ?_⟩
          exact h.2.append (List.Sublist.refl _)
        · next hrow => rw [hrow]; exact h.mono

/-- The invariant propagated through the whole file. -/
lemma foldl_pstep_inv (lines : List Str) :
    ∀ (st : PState) (R : List (ℚ × ℚ)), ParseInv R st →
      ParseInv (R ++ allRows lines) (lines.foldl pstep st) := by
  induction lines with
  | nil => intro st R h; simpa [allRows] using h
  | cons l ls ih =>
    intro st R h
    have h1 := pstep_inv l h
    have h2 := ih (pstep st l) _ h1
    rw [List.foldl_cons]
    have : allRows (l :: ls) = (parseRow (pstrip l)).toList ++ allRows ls := by
      simp [allRows, List.filterMap_cons]
      rcases parseRow (pstrip l) with _ | row <;> simp
    rw [this, ← List.append_assoc]
    exact h2

/-- Every stored section of a parsed dataset is non-empty and its rows
are, in order, among the file's valid numeric rows. -/
lemma parse_sections_inv (lines : List Str) :
    ∀ e ∈ parse_experimental_file lines, e.2 ≠ [] ∧ e.2.Sublist (allRows lines) := by
  intro e he
  have h0 : ParseInv ([] ++ allRows lines) (lines.foldl pstep ⟨[], none, []⟩) :=
    foldl_pstep_inv lines ⟨[], none, []⟩ []
      ⟨fun e he => absurd he (List.not_mem_nil e), List.nil_sublist _⟩
  rw [List.nil_append] at h0
  unfold parse_experimental_file at he
  rcases flush_mem he with h | h
  · exact h0.1 e h
  · exact ⟨by rw [h.1]; exact h.2, by rw [h.1]; exact h0.2⟩

/-- A parse step over a non-`plot-` line with no open section does
nothing. -/
lemma pstep_no_section {st : PState} {l : Str} (hsec : st.curSection = none)
    (hl : startswith "plot-".toList (pstrip l) = false) : pstep st l = st := by
  simp only [pstep, hl]
  split
  · rfl
  · simp only [Bool.false_eq_true, if_false, hsec]

/-- A file with no `plot-` line leaves the parser in its initial state. -/
lemma foldl_no_plot (lines : List Str) :
    ∀ st : PState, st.curSection = none →
      (∀ l ∈ lines, startswith "plot-".toList (pstrip l) = false) →
      lines.foldl pstep st = st := by
  induction lines with
  | nil => intro st _ _; rfl
  | cons l ls ih =>
    intro st hsec hl
    rw [List.foldl_cons, pstep_no_section hsec (hl l (List.mem_cons_self _ _))]
    exact ih st hsec fun l' hl' => hl l' (List.mem_cons_of_mem _ hl')

/-- C8: for every input file, every stored section of
`parse_experimental_file` has at least one row, the rows of each section
appear in the order of the file's valid numeric rows (a section with
zero valid rows is never stored), and a file with no `plot-` line
yields the empty dataset. -/
theorem C8_dataset_invariants (lines : List Str) :
    (∀ e ∈ parse_experimental_file lines,
        e.2 ≠ [] ∧ e.2.Sublist (allRows lines)) ∧
    ((∀ l ∈ lines, startswith "plot-".toList (pstrip l) = false) →
        parse_experimental_file lines = []) := by
  constructor
  · exact parse_sections_inv lines
  · intro hnp
    unfold parse_experimental_file
    rw [foldl_no_plot lines ⟨[], none, []⟩ rfl hnp]
    rfl

/-- Witness for C8 at the concrete file `["plot-a", "1 2"]` and at a
file with no `plot-` line. -/
theorem C8_dataset_invariants_witness :
    ([((1 : ℚ), (2 : ℚ))] ≠ [] ∧
      [((1 : ℚ), (2 : ℚ))].Sublist (allRows ["plot-a".toList, "1 2".toList])) ∧
    parse_experimental_file ["7 8".toList] = [] :=
  ⟨(C8_dataset_invariants ["plot-a".toList, "1 2".toList]).1 ("plot-a".toList, [(1, 2)])
      (by with_unfolding_all (exact List.mem_singleton.mpr rfl)),
   (C8_dataset_invariants ["7 8".toList]).2
      (by intro l hl; rw [List.mem_singleton.mp hl]; with_unfolding_all rfl)⟩

/-- C9: every row stored anywhere in the dataset originates from a line
of the file whose first two whitespace tokens both parse as floats; a
line failing that test contributes no row (and the parser, a total
function, never raises). -/
theorem C9_rows_from_numeric_lines (lines : List Str) :
    ∀ e ∈ parse_experimental_file lines, ∀ p ∈ e.2,
      ∃ l ∈ lines, parseRow (pstrip l) = some p := by
  intro e he p hp
  have hsub := (parse_sections_inv lines e he).2
  have hmem : p ∈ allRows lines := hsub.subset hp
  unfold allRows at hmem
  exact List.mem_filterMap.mp hmem

/-- Witness for C9: the single row of `["plot-a", "1 2"]` comes from its
numeric line. -/
theorem C9_rows_from_numeric_lines_witness :
    ∃ l ∈ ["plot-a".toList, "1 2".toList], parseRow (pstrip l) = some ((1 : ℚ), (2 : ℚ)) :=
  C9_rows_from_numeric_lines ["plot-a".toList, "1 2".toList]
    ("plot-a".toList, [(1, 2)]) (by with_unfolding_all (exact List.mem_singleton.mpr rfl))
    (1, 2) (List.mem_singleton.mpr rfl)

/-! Error metrics (claims on `calculate_error_metrics`) -/

/-- When every guard passes, `calculate_error_metrics` produces a
record. -/
lemma cem_isSome (er exp_u sr sim_u : List ℚ) (hlen0 : ¬ sr.length = 0)
    (hl : sr.length = sim_u.length)
    (hb : exp_u.all (fun u => decide (u = 0)) = false) :
    ∃ em, calculate_error_metrics (some er) exp_u (some sr) sim_u = some em := by
  simp only [calculate_error_metrics, hb, Bool.false_eq_true, if_false,
    if_neg hlen0, np_interp, if_neg (not_not_intro hl)]
  exact ⟨_, rfl⟩

/-- When the two simulation arrays disagree in length (the interpolation
raises), `calculate_error_metrics` is `None`. -/
lemma cem_interp_fail (er exp_u sr sim_u : List ℚ) (hlen0 : ¬ sr.length = 0)
    (hl : ¬ sr.length = sim_u.length) :
    calculate_error_metrics (some er) exp_u (some sr) sim_u = none := by
  by_cases hb : exp_u.all (fun u => decide (u = 0)) = true
  · simp only [calculate_error_metrics, hb, if_true, if_neg hlen0]
  · rw [Bool.not_eq_true] at hb
    simp only [calculate_error_metrics, hb, Bool.false_eq_true, if_false,
      if_neg hlen0, np_interp, if_pos hl]

/-- C3: the metrics are undefined (`None`) exactly when the simulation
abscissa is absent or empty, the experimental abscissa is absent, every
experimental dependent value is exactly zero, or the interpolation
raises (a non-empty simulation abscissa paired with a value array of a
different length); in every other case a record of the five metrics is
returned. -/
theorem C3_metrics_none_iff (exp_r : Option (List ℚ)) (exp_u : List ℚ)
    (sim_r : Option (List ℚ)) (sim_u : List ℚ) :
    calculate_error_metrics exp_r exp_u sim_r sim_u = none ↔
      (sim_r = none ∨ sim_r = some [] ∨ exp_r = none ∨ (∀ u ∈ exp_u, u = 0) ∨
        ∃ sr, sim_r = some sr ∧ sr ≠ [] ∧ sr.length ≠ sim_u.length) := by
  rcases sim_r with _ | sr
  · simp [calculate_error_metrics]
  rcases exp_r with _ | er
  · simp [calculate_error_metrics]
  by_cases hsr : sr = []
  · subst hsr
    simp [calculate_error_metrics]
  have hlen0 : ¬ sr.length = 0 := by
    simpa [List.length_eq_zero] using hsr
  by_cases hz : ∀ u ∈ exp_u, u = 0
  · have hb : exp_u.all (fun u => decide (u = 0)) = true := by
      rw [List.all_eq_true]; intro x hx; exact decide_eq_true (hz x hx)
    simp only [calculate_error_metrics]
    rw [if_neg hlen0, if_pos hb]
    exact iff_of_true rfl (Or.inr (Or.inr (Or.inr (Or.inl hz))))
  · have hb : exp_u.all (fun u => decide (u = 0)) = false := by
      rw [Bool.eq_false_iff, ne_eq, List.all_eq_true]
      intro hall; exact hz fun x hx => of_decide_eq_true (hall x hx)
    by_cases hl : sr.length = sim_u.length
    · obtain ⟨em, hem⟩ := cem_isSome er exp_u sr sim_u hlen0 hl hb
      rw [hem]
      refine iff_of_false (by simp) ?_
      rintro (h | h | h | h | ⟨sr', hsr', hne', hlen'⟩)
      · exact absurd h (by simp)
      · exact hsr (Option.some_inj.mp h)
      · exact absurd h (by simp)
      · exact hz h
      · cases Option.some_inj.mp hsr'
        exact hlen' hl
    · rw [cem_interp_fail er exp_u sr sim_u hlen0 hl]
      constructor
      · intro _
        exact Or.inr (Or.inr (Or.inr (Or.inr ⟨sr, rfl, hsr, hl⟩)))
      · intro _; rfl

/-- C4: on the identical three-point curves the metrics are exact:
RMSE = 0 (its square is 0), MAE = 0, MaxErr = 0, R² = 1, NRMSE = 0 (its
square is 0). -/
theorem C4_identical_curves :
    calculate_error_metrics (some [0, 1, 2]) [1, 2, 3] (some [0, 1, 2]) [1, 2, 3] =
      some { RMSE_sq := 0, MAE := 0, R2 := some 1, MaxErr := 0, NRMSE_sq := some 0 } := by
  with_unfolding_all rfl

/-- C5: when every experimental value equals one non-zero constant and
the interpolated simulation values match it at every experimental
abscissa, the metrics record exists with RMSE = 0 and R² undefined
(NaN, since the total sum of squares about the mean is zero). -/
theorem C5_constant_exact_match (c : ℚ) (er exp_u sr sim_u : List ℚ)
    (hc : c ≠ 0) (hu : ∀ u ∈ exp_u, u = c) (hne : exp_u ≠ [])
    (hlen : er.length = exp_u.length) (hsr : sr ≠ [])
    (hsu : sr.length = sim_u.length)
    (hint : ∀ x ∈ er, interp1 x sr sim_u = c) :
    ∃ em, calculate_error_metrics (some er) exp_u (some sr) sim_u = some em ∧
      em.RMSE_sq = 0 ∧ em.R2 = none := by
  have hb : exp_u.all (fun u => decide (u = 0)) = false := by
    rw [Bool.eq_false_iff, ne_eq, List.all_eq_true]
    intro hall
    obtain ⟨x, hx⟩ := List.exists_mem_of_ne_nil exp_u hne
    exact hc (by rw [← hu x hx]; exact of_decide_eq_true (hall x hx))
  have hlen0 : ¬ sr.length = 0 := by simpa [List.length_eq_zero] using hsr
  have hfilter : (er.zip exp_u).filter (fun p => decide (p.2 ≠ 0)) = er.zip exp_u := by
    apply List.filter_eq_self.mpr
    intro p hp
    rcases p with ⟨a, b⟩
    have hb' : b ∈ exp_u := (List.of_mem_zip hp).2
    exact decide_eq_true (show b ≠ 0 by rw [hu b hb']; exact hc)
  have hfst : (er.zip exp_u).map Prod.fst = er :=
    List.map_fst_zip er exp_u (le_of_eq hlen)
  have hsnd : (er.zip exp_u).map Prod.snd = exp_u :=
    List.map_snd_zip er exp_u (le_of_eq hlen.symm)
  have hinterp : np_interp er sr sim_u =
      .ok (er.map fun x => interp1 x sr sim_u) := by
    simp only [np_interp]
    rw [if_neg hlen0, if_neg (not_not_intro hsu)]
  have hmap : er.map (fun x => interp1 x sr sim_u) = List.replicate er.length c := by
    rw [List.map_congr_left hint, List.map_const']
  have herr : ∀ e ∈ ((List.replicate er.length c).zip exp_u).map
      (fun p => p.1 - p.2), e = 0 := by
    intro e he
    obtain ⟨p, hp, rfl⟩ := List.mem_map.mp he
    rcases p with ⟨a, b⟩
    have h1 := List.eq_of_mem_replicate (List.of_mem_zip hp).1
    have h2 := hu b (List.of_mem_zip hp).2
    simp [h1, h2]
  have hmse : mean ((((List.replicate er.length c).zip exp_u).map
      (fun p => p.1 - p.2)).map (fun e => e ^ 2)) = 0 := by
    rw [mean, List.sum_eq_zero, zero_div]
    intro x hx
    obtain ⟨e, he, rfl⟩ := List.mem_map.mp hx
    rw [herr e he]; ring
  have hmean : mean exp_u = c := by
    have hlen' : (exp_u.length : ℚ) ≠ 0 := Nat.cast_ne_zero.mpr (by simpa using hne)
    rw [mean, List.sum_eq_card_nsmul exp_u c hu, nsmul_eq_mul, mul_comm,
      mul_div_assoc, div_self hlen', mul_one]
  have hr2 : ¬ (0 < (exp_u.map (fun u => (u - mean exp_u) ^ 2)).sum) := by
    have htot : (exp_u.map (fun u => (u - mean exp_u) ^ 2)).sum = 0 := by
      apply List.sum_eq_zero
      intro x hx
      obtain ⟨u, hu', rfl⟩ := List.mem_map.mp hx
      rw [hmean, hu u hu']; ring
    rw [htot]; exact lt_irrefl 0
  simp only [calculate_error_metrics, hb, Bool.false_eq_true, if_false,
    if_neg hlen0, hfilter, hfst, hsnd, hinterp, hmap]
  refine ⟨_, rfl, hmse, ?_⟩
  exact if_neg hr2

/-- Witness for C5 at the constant curve `y = 5` over two points matched
exactly by the simulation `[0,1] ↦ [5,5]`. -/
theorem C5_constant_exact_match_witness :
    ∃ em, calculate_error_metrics (some [0, 1]) [5, 5] (some [0, 1]) [5, 5] = some em ∧
      em.RMSE_sq = 0 ∧ em.R2 = none :=
  C5_constant_exact_match 5 [0, 1] [5, 5] [0, 1] [5, 5]
    (by norm_num) (by intro u hu; rcases List.mem_cons.mp hu with rfl | h; · rfl
                      · exact List.mem_singleton.mp h)
    (by simp) rfl (by simp) rfl
    (by intro x hx; rcases List.mem_cons.mp hx with rfl | h
        · with_unfolding_all rfl
        · rw [List.mem_singleton.mp h]; with_unfolding_all rfl)

/-! Jet width (claims on `calculate_jet_width`) -/

/-- If no consecutive pair crosses the threshold, the scan finds
nothing. -/
lemma findCrossing_eq_none {h : ℚ} : ∀ {ps : List (ℚ × ℚ)},
    NoHalfCrossing h ps → findCrossing h ps = none
  | [], _ => rfl
  | [_], _ => rfl
  | (r0, u0) :: (r1, u1) :: ps, hnc => by
    have h0 : ¬(h ≤ u0 ∧ u1 < h) := by
      simpa using hnc 0 (by simp)
    rw [findCrossing, if_neg h0]
    refine findCrossing_eq_none fun i hi => ?_
    have := hnc (i + 1) (by simpa using Nat.succ_lt_succ hi)
    simpa using this

/-- C6: the jet width is undefined whenever the centerline velocity (at
the sample closest to zero) is not strictly positive, and whenever no
consecutive pair of the non-negative-radius samples sits at or above the
half-velocity threshold and then below it; in particular the flat
profile `[1,1,2,1,1]` over `[-2,-1,0,1,2]` has no width. -/
lemma calculate_jet_width_eq (r u : List ℚ) :
    calculate_jet_width (some r) (some u) =
      if r.length < 3 then none
      else if u.getD (argminAbs r) 0 ≤ 0 then none
      else findCrossing (u.getD (argminAbs r) 0 / 2)
        ((r.zip u).filter (fun p => 0 ≤ p.1)) := rfl

theorem C6_jet_width_none (r u : List ℚ) (hlen : r.length = u.length) :
    (u.getD (argminAbs r) 0 ≤ 0 → calculate_jet_width (some r) (some u) = none) ∧
    (NoHalfCrossing (u.getD (argminAbs r) 0 / 2)
        ((r.zip u).filter (fun p => 0 ≤ p.1)) →
      calculate_jet_width (some r) (some u) = none) ∧
    calculate_jet_width (some [-2, -1, 0, 1, 2]) (some [1, 1, 2, 1, 1]) = none := by
  refine ⟨?_, ?_, by with_unfolding_all rfl⟩
  · intro hc
    rw [calculate_jet_width_eq]
    by_cases h3 : r.length < 3
    · rw [if_pos h3]
    · rw [if_neg h3, if_pos hc]
  · intro hnc
    rw [calculate_jet_width_eq]
    by_cases h3 : r.length < 3
    · rw [if_pos h3]
    · rw [if_neg h3]
      by_cases hc : u.getD (argminAbs r) 0 ≤ 0
      · rw [if_pos hc]
      · rw [if_neg hc]
        exact findCrossing_eq_none hnc

/-- Witness for C6: a profile whose centerline velocity is negative. -/
theorem C6_jet_width_none_witness :
    calculate_jet_width (some [0, 1, 2]) (some [-1, 5, 5]) = none :=
  (C6_jet_width_none [0, 1, 2] [-1, 5, 5] rfl).1
    (by with_unfolding_all (exact (by norm_num : (-1 : ℚ) ≤ 0)))

/-- C7: on positions `[0,1,2,3]` and velocities `[4,4,1,0]` the jet
width is twice the interpolated half-velocity radius `5/3`, i.e.
`10/3`. -/
theorem C7_jet_width_example :
    calculate_jet_width (some [0, 1, 2, 3]) (some [4, 4, 1, 0]) = some (10 / 3) := by
  with_unfolding_all rfl

/-- C10: with an absent position or velocity array, or fewer than three
position samples, the jet width is undefined regardless of the data. -/
theorem C10_short_input_none (rr uu : Option (List ℚ))
    (h : rr = none ∨ uu = none ∨ ∃ r, rr = some r ∧ r.length < 3) :
    calculate_jet_width rr uu = none := by
  rcases h with rfl | rfl | ⟨r, rfl, hr⟩
  · rfl
  · rcases rr with _ | r <;> rfl
  · rcases uu with _ | u
    · rfl
    · rw [calculate_jet_width_eq, if_pos hr]

/-- Witness for C10: two samples whose half-velocity crossing exists
(the scan alone would report a width of `4/3`), yet the result is
`None`. -/
theorem C10_short_input_none_witness :
    calculate_jet_width (some [0, 1]) (some [4, 1]) = none ∧
    findCrossing 2 [((0 : ℚ), (4 : ℚ)), (1, 1)] = some (4 / 3) :=
  ⟨C10_short_input_none (some [0, 1]) (some [4, 1])
      (Or.inr (Or.inr ⟨[0, 1], rfl, by norm_num⟩)),
   by with_unfolding_all rfl⟩

/-! Sample reader (claims on `read_openfoam_sample` and the
`latestTime` selector) -/

lemma exceptOk_bind {α β : Type} (a : α) (f : α → Except Str β) :
    ((Except.ok a : Except Str α) >>= f) = f a := rfl

lemma exceptPure_bind {α β : Type} (a : α) (f : α → Except Str β) :
    ((pure a : Except Str α) >>= f) = f a := rfl

/-- When the time selector resolves to directory `d`, reading reduces to
the table phase at `d`. -/
lemma read_openfoam_sample_via (fs : SampleFS) (name time d : Str)
    (hd : if time = "latestTime".toList
          then select_latest fs.subdirs = .ok (some d) else time = d) :
    read_openfoam_sample fs name time = read_table fs name d := by
  by_cases ht : time = "latestTime".toList
  · rw [if_pos ht] at hd
    simp only [read_openfoam_sample, if_pos ht, hd, exceptOk_bind]
  · rw [if_neg ht] at hd
    subst hd
    simp only [read_openfoam_sample, if_neg ht, exceptPure_bind]

/-- An absent table file yields the not-found triple. -/
lemma read_table_file_absent (fs : SampleFS) (name d : Str)
    (hf : fs.files d (name ++ "_p_U.xy".toList) = none) :
    read_table fs name d = .ok none := by
  by_cases hm : d ∈ fs.subdirs
  · simp only [read_table, if_pos hm, hf]
    rfl
  · simp only [read_table, if_neg hm]
    rfl

/-- An empty loaded table yields the not-found triple. -/
lemma read_table_empty (fs : SampleFS) (name d : Str) (tbl : List Str)
    (hf : fs.files d (name ++ "_p_U.xy".toList) = some tbl)
    (hload : np_loadtxt tbl = .ok []) :
    read_table fs name d = .ok none := by
  by_cases hm : d ∈ fs.subdirs
  · simp only [read_table, if_pos hm, hf, hload, exceptOk_bind]
    rfl
  · simp only [read_table, if_neg hm]
    rfl

/-- C1 counterexample: on a sampling tree whose table holds an
unparsable token, `read_openfoam_sample` propagates a `ValueError`
from `np.loadtxt` instead of returning the uniform not-found triple. -/
theorem C1_cex_malformed_raises :
    read_openfoam_sample malformedTree "loc".toList "latestTime".toList =
      Except.error "could not convert string to float".toList := by
  with_unfolding_all rfl

/-- C1 (amended): the uniform not-found triple is returned when the time
directory cannot be selected or does not exist, when the table file is
absent, and when the loaded table is empty; a malformed table instead
propagates the loader's exception. -/
theorem C1_notfound_cases (fs : SampleFS) (name time : Str) :
    ((time = "latestTime".toList → fs.subdirs = []) ∧
     (time ≠ "latestTime".toList → time ∉ fs.subdirs) →
        read_openfoam_sample fs name time = .ok none) ∧
    (∀ d, (if time = "latestTime".toList
           then select_latest fs.subdirs = .ok (some d) else time = d) →
      (fs.files d (name ++ "_p_U.xy".toList) = none →
          read_openfoam_sample fs name time = .ok none) ∧
      (∀ tbl, fs.files d (name ++ "_p_U.xy".toList) = some tbl →
          np_loadtxt tbl = .ok [] →
          read_openfoam_sample fs name time = .ok none)) := by
  constructor
  · rintro ⟨h1, h2⟩
    by_cases ht : time = "latestTime".toList
    · simp only [read_openfoam_sample, if_pos ht, h1 ht]
      rfl
    · have hmem := h2 ht
      simp only [read_openfoam_sample, if_neg ht, exceptPure_bind]
      simp only [read_table, if_neg hmem]
      rfl
  · intro d hd
    rw [read_openfoam_sample_via fs name time d hd]
    exact ⟨fun hf => read_table_file_absent fs name d hf,
           fun tbl hf hl => read_table_empty fs name d tbl hf hl⟩

/-- Witness for C1: an explicit time directory missing from the tree
reports not found. -/
theorem C1_notfound_cases_witness :
    read_openfoam_sample bareTree "loc".toList "5".toList = .ok none :=
  (C1_notfound_cases bareTree "loc".toList "5".toList).1
    ⟨fun h => absurd h (by decide), fun _ => by decide⟩

/-- C2 counterexample: with two subdirectories, the non-numeric first
one wins the tie at key 0 against the numeric `"0"` (so a non-numeric
name can win even when it is not the only entry), and a digits-and-dots
name with two dots makes the selector raise instead of being treated as
time 0. -/
theorem C2_cex_selection :
    select_latest ["latest_garbage".toList, "0".toList] =
      .ok (some "latest_garbage".toList) ∧
    select_latest ["0".toList, "1.2.3".toList] =
      .error "could not convert string to float".toList :=
  ⟨by with_unfolding_all rfl, by with_unfolding_all rfl⟩

/-- The `max` scan returns an element whose key dominates every listed
key, given that every key evaluation succeeds. -/
lemma maxGo_spec : ∀ (ds : List Str) (best : Str) (bk : ℚ),
    (∀ d ∈ ds, timeKey d = .ok (timeKeyD d)) →
    ∃ m mk, maxGo best bk ds = .ok m ∧
      ((m = best ∧ mk = bk) ∨ (m ∈ ds ∧ mk = timeKeyD m)) ∧
      bk ≤ mk ∧ ∀ d ∈ ds, timeKeyD d ≤ mk
  | [], best, bk, _ =>
    ⟨best, bk, rfl, Or.inl ⟨rfl, rfl⟩, le_refl _, by simp⟩
  | d :: ds, best, bk, hval => by
    have hd : timeKey d = .ok (timeKeyD d) := hval d (List.mem_cons_self _ _)
    have htail : ∀ d' ∈ ds, timeKey d' = .ok (timeKeyD d') :=
      fun d' hd' => hval d' (List.mem_cons_of_mem _ hd')
    by_cases hbk : bk < timeKeyD d
    · obtain ⟨m, mk, hm, hcase, hle, hall⟩ := maxGo_spec ds d (timeKeyD d) htail
      refine ⟨m, mk, ?_, ?_, le_of_lt (lt_of_lt_of_le hbk hle), ?_⟩
      · simp only [maxGo, hd, if_pos hbk, hm]
      · rcases hcase with ⟨rfl, rfl⟩ | ⟨hmem, hmk⟩
        · exact Or.inr ⟨List.mem_cons_self _ _, rfl⟩
        · exact Or.inr ⟨List.mem_cons_of_mem _ hmem, hmk⟩
      · intro d' hd'
        rcases List.mem_cons.mp hd' with rfl | h
        · exact hle
        · exact hall d' h
    · obtain ⟨m, mk, hm, hcase, hle, hall⟩ := maxGo_spec ds best bk htail
      refine ⟨m, mk, ?_, ?_, hle, ?_⟩
      · simp only [maxGo, hd, if_neg hbk, hm]
      · rcases hcase with h | ⟨hmem, hmk⟩
        · exact Or.inl h
        · exact Or.inr ⟨List.mem_cons_of_mem _ hmem, hmk⟩
      · intro d' hd'
        rcases List.mem_cons.mp hd' with rfl | h
        · exact le_trans (le_of_not_lt hbk) hle
        · exact hall d' h

/-- C2 (amended): when no subdirectory name is a digits-and-dots string
with more than one dot (every key evaluation succeeds), the `latestTime`
selector reports not found on an empty root, and otherwise picks a
subdirectory whose key — its numeric value, 0 for a non-numeric name —
dominates all others (ties go to the earliest listed, so a non-numeric
name can win a tie); on `["0","10","2.5","latest_garbage"]` it picks
`"10"`. -/
theorem C2_latest_time_selection (ds : List Str)
    (hval : ∀ d ∈ ds, timeKey d = .ok (timeKeyD d)) :
    (ds = [] → select_latest ds = .ok none) ∧
    (∀ m, select_latest ds = .ok (some m) →
        m ∈ ds ∧ ∀ d ∈ ds, timeKeyD d ≤ timeKeyD m) ∧
    (ds ≠ [] → ∃ m, select_latest ds = .ok (some m)) ∧
    select_latest ["0".toList, "10".toList, "2.5".toList, "latest_garbage".toList] =
      .ok (some "10".toList) := by
  have hkey : ∀ d ds', ds = d :: ds' →
      timeKey d = .ok (timeKeyD d) ∧ ∀ d' ∈ ds', timeKey d' = .ok (timeKeyD d') := by
    rintro d ds' rfl
    exact ⟨hval d (List.mem_cons_self _ _),
      fun d' hd' => hval d' (List.mem_cons_of_mem _ hd')⟩
  refine ⟨?_, ?_, ?_, by with_unfolding_all rfl⟩
  · rintro rfl; rfl
  · intro m hm
    rcases hds : ds with _ | ⟨d, ds'⟩
    · rw [hds] at hm
      exact absurd hm (by simp [select_latest])
    · obtain ⟨hd, htail⟩ := hkey d ds' hds
      obtain ⟨m', mk, hm', hcase, hle, hall⟩ := maxGo_spec ds' d (timeKeyD d) htail
      rw [hds] at hm
      simp only [select_latest, hd, hm', Except.map] at hm
      have hmm : m' = m := by simpa using hm
      subst hmm
      have hmk : mk = timeKeyD m' := by
        rcases hcase with ⟨rfl, hmk⟩ | ⟨_, hmk⟩ <;> exact hmk
      subst hds
      constructor
      · rcases hcase with ⟨rfl, _⟩ | ⟨hmem, _⟩
        · exact List.mem_cons_self _ _
        · exact List.mem_cons_of_mem _ hmem
      · intro d' hd'
        rcases List.mem_cons.mp hd' with rfl | h
        · exact hmk ▸ hle
        · exact hmk ▸ hall d' h
  · intro hne
    rcases hds : ds with _ | ⟨d, ds'⟩
    · exact absurd hds hne
    · obtain ⟨hd, htail⟩ := hkey d ds' hds
      obtain ⟨m', mk, hm', _, _, _⟩ := maxGo_spec ds' d (timeKeyD d) htail
      refine ⟨m', ?_⟩
      simp only [select_latest, hd, hm', Except.map]

/-- Witness for C2 at the spec's four-name example. -/
theorem C2_latest_time_selection_witness :
    select_latest ["0".toList, "10".toList, "2.5".toList, "latest_garbage".toList] =
      .ok (some "10".toList) :=
  (C2_latest_time_selection ["0".toList, "10".toList, "2.5".toList, "latest_garbage".toList]
    (by intro d hd
        rcases List.mem_cons.mp hd with rfl | hd
        · with_unfolding_all rfl
        rcases List.mem_cons.mp hd with rfl | hd
        · with_unfolding_all rfl
        rcases List.mem_cons.mp hd with rfl | hd
        · with_unfolding_all rfl
        rw [List.mem_singleton.mp hd]
        with_unfolding_all rfl)).2.2.2

end VV
